import Mathlib

/-!
Verification development for the Bedrock Converse Stream chat page
(`views/boto_converse_stream_cache.py`).

The page keeps a conversation store (`st.session_state.messages`) of loosely
typed dictionaries, builds a `converse_stream` request from it (inserting
prompt-cache boundary markers), consumes the streamed reply into a growing
text buffer plus a metadata record, and renders a compact telemetry caption.

This file shallowly embeds that logic: dictionaries with optional keys become
structures with `Option` fields, the stream loop becomes a fold over an event
list, and the `try`/`except` around the call becomes an explicit fault
parameter.  All definitions are executable.
-/

namespace BotoConverseStreamCache

/-! ## Filename sanitization (`sanitize_filename`, lines 30-42) -/

/-- Whitespace characters matched by the Python text-pattern regex class
`\s` and stripped by `str.strip()`: ASCII whitespace plus the Unicode
whitespace code points. -/
def pySpaceChars : List Char :=
  [' ', '\t', '\n', '\r', '\x0b', '\x0c', '\x1c', '\x1d', '\x1e', '\x1f',
   '\x85', '\xa0', '\u1680', '\u2000', '\u2001', '\u2002', '\u2003', '\u2004',
   '\u2005', '\u2006', '\u2007', '\u2008', '\u2009', '\u200a', '\u2028',
   '\u2029', '\u202f', '\u205f', '\u3000']

/-- Whether a character counts as whitespace for the regex `\s` and for
`str.strip()`. -/
def isPySpace (c : Char) : Bool := pySpaceChars.contains c

/-- A character left unchanged by
`re.sub(r'[^a-zA-Z0-9\s\-\(\)\[\]]', ' ', filename)`:
ASCII alphanumerics, whitespace, hyphen, parentheses and square brackets. -/
def isAllowedChar (c : Char) : Bool :=
  c.isAlpha || c.isDigit || isPySpace c ||
    c == '-' || c == '(' || c == ')' || c == '[' || c == ']'

/-- Embeds `re.sub(r'[^a-zA-Z0-9\s\-\(\)\[\]]', ' ', filename)`. -/
def replaceDisallowed (l : List Char) : List Char :=
  l.map (fun c => if isAllowedChar c then c else ' ')

/-- One left-to-right pass of `re.sub(r'\s+', ' ', name)`: every maximal run
of whitespace characters is replaced by one space.  The boolean flag records
whether the previous character belonged to a whitespace run. -/
def collapseAux : Bool → List Char → List Char
  | _, [] => []
  | prevSpace, c :: cs =>
    if isPySpace c then
      if prevSpace then collapseAux true cs else ' ' :: collapseAux true cs
    else c :: collapseAux false cs

/-- Embeds `re.sub(r'\s+', ' ', name)`. -/
def collapseWS (l : List Char) : List Char := collapseAux false l

/-- Embeds Python `str.strip()` over the modelled whitespace set. -/
def pyStrip (l : List Char) : List Char :=
  ((l.dropWhile isPySpace).reverse.dropWhile isPySpace).reverse

/-- Embeds `sanitize_filename` (lines 30-42): replace disallowed characters
with spaces, then collapse whitespace runs, then trim, and fall back to
`"document"` when nothing is left. -/
def sanitize_filename (filename : String) : String :=
  if pyStrip (collapseWS (replaceDisallowed filename.data)) = [] then "document"
  else ⟨pyStrip (collapseWS (replaceDisallowed filename.data))⟩

/-- No two consecutive whitespace characters occur in the list. -/
def noDoubleSpace : List Char → Bool
  | a :: b :: rest => (!(isPySpace a && isPySpace b)) && noDoubleSpace (b :: rest)
  | _ => true

/-! ## Data model: stored conversation messages -/

/-- Token usage record, as read from a stream metadata event with
`usage.get(key, 0)` semantics: a missing key reads as `0`. -/
structure Usage where
  inputTokens : Nat
  outputTokens : Nat
  cacheReadInputTokens : Nat
  cacheWriteInputTokens : Nat
deriving DecidableEq

/-- Latency metrics record (`metrics.get('latencyMs', 0)`). -/
structure Metrics where
  latencyMs : Nat
deriving DecidableEq

/-- The `metadata` dictionary attached to an assistant message.  `none`
models the initial empty dict `{}` (which is falsy in Python) for each of
the two sub-records. -/
structure Metadata where
  usage : Option Usage
  metrics : Option Metrics
deriving DecidableEq

/-- The `message["image"]` sub-dictionary stored in the conversation. -/
structure ImageAtt where
  format : String
  data : List Nat
  original_name : String
deriving DecidableEq

/-- The `message["document"]` sub-dictionary stored in the conversation;
`cached` is the document-cache toggle captured at submit time (line 247). -/
structure DocAtt where
  format : String
  name : String
  original_name : String
  content : List Nat
  cached : Bool
deriving DecidableEq

/-- One entry of `st.session_state.messages`: a dictionary with a mandatory
`role` and optional `text`, `image`, `document` and `metadata` keys. -/
structure Msg where
  role : String
  text : Option String
  image : Option ImageAtt
  document : Option DocAtt
  metadata : Option Metadata
deriving DecidableEq

/-! ## Attachment normalization (upload handling, lines 174-248) -/

/-- Classification of an uploaded file. -/
inductive FileKind where
  | image
  | document
deriving DecidableEq

/-- An uploaded file as seen by the handler: `uploaded_file.name`,
`uploaded_file.type` (MIME) and `uploaded_file.read()`. -/
structure UploadedFile where
  name : String
  mime : String
  bytes : List Nat
deriving DecidableEq

/-- Embeds `uploaded_file.name.split('.')[-1].lower()` (line 176). -/
def fileExtension (name : String) : String :=
  ((name.splitOn ".").getLastD "").toLower

/-- Embeds `file_type.startswith('image/')` (line 182). -/
def classifyKind (mime : String) : FileKind :=
  if mime.startsWith "image/" then FileKind.image else FileKind.document

/-- Embeds `format_mapping.get(file_extension, 'jpeg')` (lines 183-190). -/
def imageFormatOf (ext : String) : String :=
  if ext == "jpg" then "jpeg"
  else if ext == "jpeg" then "jpeg"
  else if ext == "png" then "png"
  else if ext == "gif" then "gif"
  else if ext == "webp" then "webp"
  else "jpeg"

/-- The keys of `doc_format_mapping` (lines 210-220), each mapped to
itself. -/
def docFormatKeys : List String :=
  ["pdf", "csv", "doc", "docx", "xls", "xlsx", "html", "txt", "md"]

/-- Embeds `doc_format_mapping.get(file_extension, 'txt')` (line 221). -/
def docFormatOf (ext : String) : String :=
  if docFormatKeys.contains ext then ext else "txt"

/-- Embeds the construction of the stored user message (lines 250-269):
always carries the prompt text; an uploaded file becomes an image or
document attachment, the document's `cached` flag recording the
document-cache toggle at submit time. -/
def mkUserMessage (prompt : String) (file : Option UploadedFile)
    (enable_document_cache : Bool) : Msg :=
  match file with
  | none =>
    { role := "user", text := some prompt, image := none, document := none,
      metadata := none }
  | some f =>
    if classifyKind f.mime = FileKind.image then
      { role := "user", text := some prompt,
        image := some
          { format := imageFormatOf (fileExtension f.name), data := f.bytes,
            original_name := f.name },
        document := none, metadata := none }
    else
      { role := "user", text := some prompt, image := none,
        document := some
          { format := docFormatOf (fileExtension f.name),
            name := sanitize_filename f.name, original_name := f.name,
            content := f.bytes, cached := enable_document_cache },
        metadata := none }

/-! ## Request builder (lines 296-364) -/

/-- One content block of the provider request. -/
inductive Block where
  | text (s : String)
  | image (format : String) (bytes : List Nat)
  | document (format : String) (name : String) (bytes : List Nat)
  | cachePoint
deriving DecidableEq

/-- The kind of a content block, for stating ordering properties. -/
inductive BKind where
  | text
  | image
  | document
  | cachePoint
deriving DecidableEq

/-- Projects a block to its kind. -/
def kindOf : Block → BKind
  | Block.text _ => BKind.text
  | Block.image _ _ => BKind.image
  | Block.document _ _ _ => BKind.document
  | Block.cachePoint => BKind.cachePoint

/-- One role-tagged entry of the `messages` request parameter. -/
structure ApiMessage where
  role : String
  content : List Block
deriving DecidableEq

/-- Embeds the per-message `content` assembly (lines 299-335): image block
first if present, then document block followed by a cache point exactly when
the stored `cached` flag is set, then the text block last. -/
def msgContent (m : Msg) : List Block :=
  (match m.image with
   | some img => [Block.image img.format img.data]
   | none => []) ++
  (match m.document with
   | some doc =>
     [Block.document doc.format doc.name doc.content] ++
       (if doc.cached then [Block.cachePoint] else [])
   | none => []) ++
  (match m.text with
   | some t => [Block.text t]
   | none => [])

/-- Embeds the `api_messages` loop (lines 297-340). -/
def buildMessages (store : List Msg) : List ApiMessage :=
  store.map (fun m => { role := m.role, content := msgContent m })

/-- Embeds the `system_config` assembly (lines 342-353): `none` models the
Python `None` (system parameter absent); a prompt that is non-empty after
`strip()` yields one text block, followed by a cache point when the
system-cache toggle is currently on. -/
def buildSystem (system_prompt : String) (enable_system_cache : Bool) :
    Option (List Block) :=
  if pyStrip system_prompt.data ≠ [] then
    some ([Block.text system_prompt] ++
      (if enable_system_cache then [Block.cachePoint] else []))
  else none

/-- The request payload handed to `converse_stream` (lines 356-364),
restricted to the parts built by this page: the `messages` list and the
optional `system` list.  Model id, max tokens and temperature are copied
verbatim from the sidebar configuration and carry no logic. -/
structure RequestPayload where
  messages : List ApiMessage
  system : Option (List Block)
deriving DecidableEq

/-- Builds the full payload from the store and the call-time configuration.
The call-time document-cache toggle is in scope at the call site but is not
read by the builder (document cache points come from the stored flags). -/
def buildPayload (store : List Msg) (system_prompt : String)
    (enable_system_cache : Bool) (enable_document_cache : Bool) :
    RequestPayload :=
  { messages := buildMessages store,
    system := buildSystem system_prompt enable_system_cache }

/-- Number of cache points in a block list. -/
def countCachePointsBlocks (l : List Block) : Nat :=
  l.countP (fun b => decide (b = Block.cachePoint))

/-- Number of cache points in the whole payload. -/
def countCachePoints (p : RequestPayload) : Nat :=
  (p.messages.map (fun am => countCachePointsBlocks am.content)).sum +
    countCachePointsBlocks (p.system.getD [])

/-- Whether a block is a text block. -/
def isTextBlock : Block → Bool
  | Block.text _ => true
  | _ => false

/-- A store entry holding one cached document attachment and no text: the
concrete request-builder test vector of the spec. -/
def exampleDocMsg : Msg :=
  { role := "user", text := none, image := none,
    document := some
      { format := "pdf", name := "report", original_name := "report.pdf",
        content := [], cached := true },
    metadata := none }

/-! ## Stream consumer (lines 366-392) -/

/-- One event of the provider stream, as inspected by the loop: a
`contentBlockDelta` whose `delta` dictionary may or may not carry `text`, a
`messageStop` with its stop reason, a `metadata` event optionally carrying
`usage` and `metrics`, or any other event key, which the loop ignores. -/
inductive StreamEvent where
  | contentBlockDelta (text : Option String)
  | messageStop (stopReason : String)
  | metadataEvent (usage : Option Usage) (metrics : Option Metrics)
  | otherEvent
deriving DecidableEq

/-- The in-flight stream state: the growing `full_response` buffer and the
`metadata` record (each sub-record `none` until first written). -/
structure StreamState where
  fullResponse : String
  usage : Option Usage
  metrics : Option Metrics
deriving DecidableEq

/-- The state before the loop: `full_response = ""` and
`metadata = {"usage": {}, "metrics": {}}` (lines 287-293). -/
def initStreamState : StreamState :=
  { fullResponse := "", usage := none, metrics := none }

/-- Embeds one iteration of the `for event in stream` loop (lines 369-392):
a delta with text is appended to the buffer; a stop reason only drives an
informational notice and leaves the state unchanged; a metadata event
overwrites whichever of `usage` and `metrics` it carries. -/
def processEvent (s : StreamState) : StreamEvent → StreamState
  | StreamEvent.contentBlockDelta t =>
    match t with
    | some txt => { s with fullResponse := s.fullResponse ++ txt }
    | none => s
  | StreamEvent.messageStop _ => s
  | StreamEvent.metadataEvent u m =>
    { s with
      usage := match u with | some u' => some u' | none => s.usage,
      metrics := match m with | some m' => some m' | none => s.metrics }
  | StreamEvent.otherEvent => s

/-- Runs the loop over a finite event sequence. -/
def processStream (events : List StreamEvent) : StreamState :=
  events.foldl processEvent initStreamState

/-- The text carried by a delta event, if any. -/
def deltaText : StreamEvent → Option String
  | StreamEvent.contentBlockDelta t => t
  | _ => none

/-- The usage carried by a metadata event, if any. -/
def eventUsage : StreamEvent → Option Usage
  | StreamEvent.metadataEvent u _ => u
  | _ => none

/-- Concatenation of a list of strings in order. -/
def concatTexts (l : List String) : String := l.foldr (· ++ ·) ""

/-! ## Turn submission and error handling (lines 250-438) -/

/-- A fault raised while issuing the request or consuming the stream: a
`botocore` `ClientError` carrying the provider error code and message, or
any other exception. -/
inductive Fault where
  | clientError (code : String) (msg : String)
  | generic (msg : String)
deriving DecidableEq

/-- The outcome surfaced to the user for one submission. -/
inductive TurnResult where
  | ok
  | awsError (code : String) (msg : String)
  | genericError (msg : String)
deriving DecidableEq

/-- The assistant message appended on success (lines 423-428). -/
def mkAssistantMsg (s : StreamState) : Msg :=
  { role := "assistant", text := some s.fullResponse, image := none,
    document := none,
    metadata := some { usage := s.usage, metrics := s.metrics } }

/-- Embeds one full submission (lines 250-438): the user message is appended
to the store before the `try` block; if a fault is raised anywhere during
the request or stream consumption, the handler falls into the matching
`except` clause and no assistant message is appended; otherwise the stream
is consumed and the assistant message is appended. -/
def submitTurn (store : List Msg) (prompt : String)
    (file : Option UploadedFile) (enable_document_cache : Bool)
    (events : List StreamEvent) (fault : Option Fault) :
    List Msg × TurnResult :=
  let store1 := store ++ [mkUserMessage prompt file enable_document_cache]
  match fault with
  | some (Fault.clientError code msg) => (store1, TurnResult.awsError code msg)
  | some (Fault.generic msg) => (store1, TurnResult.genericError msg)
  | none =>
    (store1 ++ [mkAssistantMsg (processStream events)], TurnResult.ok)

/-! ## Telemetry formatter (lines 397-421) -/

/-- Inserts a thousands separator every three digits, on the reversed digit
list of a number (Python `f"{n:,}"`). -/
def insertCommas : List Char → List Char
  | a :: b :: c :: d :: rest => a :: b :: c :: ',' :: insertCommas (d :: rest)
  | l => l

/-- Embeds Python `f"{n:,}"` for a natural number. -/
def commaFmt (n : Nat) : String :=
  ⟨(insertCommas (toString n).data.reverse).reverse⟩

/-- The token-usage segment `f"Input: {input_tok:,} | Output: {output_tok:,}"`. -/
def inputSeg (inputTok outputTok : Nat) : String :=
  "Input: " ++ (commaFmt inputTok ++ (" | Output: " ++ commaFmt outputTok))

/-- The cache-read segment `f"💾 Cache Read: {cache_read:,}"`. -/
def cacheReadSeg (n : Nat) : String := "💾 Cache Read: " ++ commaFmt n

/-- The cache-write segment `f"💾 Cache Write: {cache_write:,}"`. -/
def cacheWriteSeg (n : Nat) : String := "💾 Cache Write: " ++ commaFmt n

/-- The latency segment `f"⏱️ {latency:,}ms"`. -/
def latencySeg (n : Nat) : String := "⏱️ " ++ (commaFmt n ++ "ms")

/-- Embeds the `meta_parts` assembly (lines 398-418): the usage segment is
appended whenever the usage record is truthy (non-empty), the cache
segments only for strictly positive counts, the latency segment only for a
strictly positive latency. -/
def metaParts (md : Metadata) : List String :=
  (match md.usage with
   | some usage =>
     [inputSeg usage.inputTokens usage.outputTokens] ++
       (if 0 < usage.cacheReadInputTokens then
         [cacheReadSeg usage.cacheReadInputTokens] else []) ++
       (if 0 < usage.cacheWriteInputTokens then
         [cacheWriteSeg usage.cacheWriteInputTokens] else [])
   | none => []) ++
  (match md.metrics with
   | some metrics =>
     if 0 < metrics.latencyMs then [latencySeg metrics.latencyMs] else []
   | none => [])

/-- Embeds the final caption emission (lines 420-421): the joined segments
when any exist, nothing otherwise. -/
def formatMetadata (md : Metadata) : Option String :=
  if metaParts md = [] then none
  else some (String.intercalate " | " (metaParts md))

/-! ## Lemmas about the sanitizer -/

theorem allowed_replaceDisallowed {l : List Char} {c : Char}
    (h : c ∈ replaceDisallowed l) : isAllowedChar c = true := by
  unfold replaceDisallowed at h
  obtain ⟨a, _, ha⟩ := List.mem_map.mp h
  by_cases h2 : isAllowedChar a = true
  · rw [if_pos h2] at ha
    rw [← ha]
    exact h2
  · rw [if_neg (by simp [h2])] at ha
    rw [← ha]
    decide

theorem mem_collapseAux : ∀ (flag : Bool) (l : List Char) (c : Char),
    c ∈ collapseAux flag l → c = ' ' ∨ (c ∈ l ∧ isPySpace c = false) := by
  intro flag l
  induction l generalizing flag with
  | nil =>
    intro c h
    simp [collapseAux] at h
  | cons a t ih =>
    intro c h
    by_cases ha : isPySpace a = true
    · cases flag with
      | true =>
        simp only [collapseAux, ha, if_true] at h
        rcases ih true c h with h1 | ⟨h2, h3⟩
        · exact Or.inl h1
        · exact Or.inr ⟨List.mem_cons_of_mem _ h2, h3⟩
      | false =>
        simp only [collapseAux, ha, if_true] at h
        rcases List.mem_cons.mp h with h1 | h1
        · exact Or.inl h1
        · rcases ih true c h1 with h2 | ⟨h2, h3⟩
          · exact Or.inl h2
          · exact Or.inr ⟨List.mem_cons_of_mem _ h2, h3⟩
    · have ha' : isPySpace a = false := by simpa using ha
      simp only [collapseAux, ha', Bool.false_eq_true, if_false] at h
      rcases List.mem_cons.mp h with h1 | h1
      · rw [h1]
        exact Or.inr ⟨List.mem_cons_self _ _, ha'⟩
      · rcases ih false c h1 with h2 | ⟨h2, h3⟩
        · exact Or.inl h2
        · exact Or.inr ⟨List.mem_cons_of_mem _ h2, h3⟩

theorem head_collapseAux_true : ∀ (l : List Char) (c : Char),
    (collapseAux true l).head? = some c → isPySpace c = false := by
  intro l
  induction l with
  | nil =>
    intro c h
    simp [collapseAux] at h
  | cons a t ih =>
    intro c h
    by_cases ha : isPySpace a = true
    · simp only [collapseAux, ha, if_true] at h
      exact ih c h
    · have ha' : isPySpace a = false := by simpa using ha
      simp only [collapseAux, ha', Bool.false_eq_true, if_false,
        List.head?_cons, Option.some.injEq] at h
      rw [← h]
      exact ha'

theorem noDoubleSpace_cons (c : Char) (l : List Char)
    (h1 : noDoubleSpace l = true)
    (h2 : ∀ b, l.head? = some b → (isPySpace c && isPySpace b) = false) :
    noDoubleSpace (c :: l) = true := by
  cases l with
  | nil => rfl
  | cons b t =>
    simp only [noDoubleSpace, Bool.and_eq_true, Bool.not_eq_true']
    exact ⟨h2 b rfl, h1⟩

theorem nds_collapseAux : ∀ (l : List Char) (flag : Bool),
    noDoubleSpace (collapseAux flag l) = true := by
  intro l
  induction l with
  | nil =>
    intro flag
    rfl
  | cons a t ih =>
    intro flag
    by_cases ha : isPySpace a = true
    · cases flag with
      | true =>
        simp only [collapseAux, ha, if_true]
        exact ih true
      | false =>
        simp only [collapseAux, ha, if_true]
        refine noDoubleSpace_cons _ _ (ih true) ?_
        intro b hb
        rw [head_collapseAux_true t b hb]
        rw [Bool.and_false]
    · have ha' : isPySpace a = false := by simpa using ha
      simp only [collapseAux, ha', Bool.false_eq_true, if_false]
      refine noDoubleSpace_cons _ _ (ih false) ?_
      intro b _
      rw [ha', Bool.false_and]

theorem nds_tail {a : Char} {l : List Char}
    (h : noDoubleSpace (a :: l) = true) : noDoubleSpace l = true := by
  cases l with
  | nil => rfl
  | cons b t =>
    simp only [noDoubleSpace, Bool.and_eq_true] at h
    exact h.2

theorem nds_append_right {l₁ l₂ : List Char}
    (h : noDoubleSpace (l₁ ++ l₂) = true) : noDoubleSpace l₂ = true := by
  induction l₁ with
  | nil => simpa using h
  | cons a t ih => exact ih (nds_tail (by simpa using h))

theorem nds_append_left {l₁ l₂ : List Char}
    (h : noDoubleSpace (l₁ ++ l₂) = true) : noDoubleSpace l₁ = true := by
  induction l₁ with
  | nil => rfl
  | cons a t ih =>
    cases t with
    | nil => rfl
    | cons b t2 =>
      have h' : noDoubleSpace (a :: b :: (t2 ++ l₂)) = true := by simpa using h
      simp only [noDoubleSpace, Bool.and_eq_true] at h' ⊢
      exact ⟨h'.1, by simpa using ih (by simpa using h'.2)⟩

theorem head_dropWhile_pySpace : ∀ (l : List Char) (c : Char),
    (l.dropWhile isPySpace).head? = some c → isPySpace c = false := by
  intro l
  induction l with
  | nil =>
    intro c h
    simp at h
  | cons a t ih =>
    intro c h
    by_cases ha : isPySpace a = true
    · rw [List.dropWhile_cons_of_pos ha] at h
      exact ih c h
    · have ha' : isPySpace a = false := by simpa using ha
      rw [List.dropWhile_cons_of_neg (by simp [ha'])] at h
      simp only [List.head?_cons, Option.some.injEq] at h
      rw [← h]
      exact ha'

theorem pyStrip_decomp (l : List Char) :
    l.dropWhile isPySpace =
      pyStrip l ++ ((l.dropWhile isPySpace).reverse.takeWhile isPySpace).reverse := by
  unfold pyStrip
  calc l.dropWhile isPySpace
      = (l.dropWhile isPySpace).reverse.reverse := (List.reverse_reverse _).symm
    _ = ((l.dropWhile isPySpace).reverse.takeWhile isPySpace ++
          (l.dropWhile isPySpace).reverse.dropWhile isPySpace).reverse := by
        rw [List.takeWhile_append_dropWhile]
    _ = ((l.dropWhile isPySpace).reverse.dropWhile isPySpace).reverse ++
          ((l.dropWhile isPySpace).reverse.takeWhile isPySpace).reverse :=
        List.reverse_append _ _

theorem mem_pyStrip {l : List Char} {c : Char} (h : c ∈ pyStrip l) : c ∈ l := by
  have h1 : c ∈ l.dropWhile isPySpace := by
    rw [pyStrip_decomp l]
    exact List.mem_append_left _ h
  have h2 : l = l.takeWhile isPySpace ++ l.dropWhile isPySpace :=
    (List.takeWhile_append_dropWhile _ _).symm
  rw [h2]
  exact List.mem_append_right _ h1

theorem nds_pyStrip {l : List Char} (h : noDoubleSpace l = true) :
    noDoubleSpace (pyStrip l) = true := by
  have h1 : noDoubleSpace (l.dropWhile isPySpace) = true := by
    have h2 : l = l.takeWhile isPySpace ++ l.dropWhile isPySpace :=
      (List.takeWhile_append_dropWhile _ _).symm
    rw [h2] at h
    exact nds_append_right h
  rw [pyStrip_decomp l] at h1
  exact nds_append_left h1

theorem head_pyStrip {l : List Char} {c : Char}
    (h : (pyStrip l).head? = some c) : isPySpace c = false := by
  refine head_dropWhile_pySpace l c ?_
  rw [pyStrip_decomp l]
  cases hp : pyStrip l with
  | nil => rw [hp] at h; simp at h
  | cons x xs =>
    rw [hp] at h
    simp only [List.head?_cons, Option.some.injEq] at h
    simp [h]

theorem last_pyStrip {l : List Char} {c : Char}
    (h : (pyStrip l).getLast? = some c) : isPySpace c = false := by
  unfold pyStrip at h
  rw [List.getLast?_reverse] at h
  exact head_dropWhile_pySpace _ c h

theorem pyStrip_eq_nil_iff {l : List Char} :
    pyStrip l = [] ↔ ∀ c ∈ l, isPySpace c = true := by
  unfold pyStrip
  rw [List.reverse_eq_nil_iff, List.dropWhile_eq_nil_iff]
  constructor
  · intro h c hc
    have h2 : l = l.takeWhile isPySpace ++ l.dropWhile isPySpace :=
      (List.takeWhile_append_dropWhile _ _).symm
    rw [h2] at hc
    rcases List.mem_append.mp hc with h3 | h3
    · exact List.mem_takeWhile_imp h3
    · exact h c (List.mem_reverse.mpr h3)
  · intro h c hc
    refine h c ?_
    have h1 : c ∈ l.dropWhile isPySpace := List.mem_reverse.mp hc
    have h2 : l = l.takeWhile isPySpace ++ l.dropWhile isPySpace :=
      (List.takeWhile_append_dropWhile _ _).symm
    rw [h2]
    exact List.mem_append_right _ h1

theorem dropWhile_eq_self_of_head {l : List Char}
    (h : ∀ c, l.head? = some c → isPySpace c = false) :
    l.dropWhile isPySpace = l := by
  cases l with
  | nil => rfl
  | cons a t => rw [List.dropWhile_cons_of_neg (by simp [h a rfl])]

theorem pyStrip_eq_self {l : List Char}
    (hhead : ∀ c, l.head? = some c → isPySpace c = false)
    (hlast : ∀ c, l.getLast? = some c → isPySpace c = false) :
    pyStrip l = l := by
  unfold pyStrip
  rw [dropWhile_eq_self_of_head hhead]
  rw [dropWhile_eq_self_of_head (fun c hc => hlast c (by simpa using hc))]
  rw [List.reverse_reverse]

theorem replaceDisallowed_eq_self {l : List Char}
    (h : ∀ c ∈ l, isAllowedChar c = true) : replaceDisallowed l = l := by
  unfold replaceDisallowed
  rw [List.map_congr_left (fun c hc => by rw [if_pos (h c hc)]), List.map_id']

theorem collapseAux_eq_self : ∀ (l : List Char) (flag : Bool),
    noDoubleSpace l = true →
    (∀ c ∈ l, isPySpace c = true → c = ' ') →
    (flag = true → ∀ c, l.head? = some c → isPySpace c = false) →
    collapseAux flag l = l := by
  intro l
  induction l with
  | nil =>
    intro flag _ _ _
    rfl
  | cons a t ih =>
    intro flag h1 h2 h3
    by_cases ha : isPySpace a = true
    · cases flag with
      | true => exact absurd (h3 rfl a rfl) (by simp [ha])
      | false =>
        have haS : a = ' ' := h2 a (List.mem_cons_self _ _) ha
        have hthead : ∀ c, t.head? = some c → isPySpace c = false := by
          intro c hc
          cases t with
          | nil => simp at hc
          | cons b t2 =>
            simp only [List.head?_cons, Option.some.injEq] at hc
            simp only [noDoubleSpace, Bool.and_eq_true, Bool.not_eq_true'] at h1
            rw [← hc]
            rcases Bool.and_eq_false_iff.mp h1.1 with hb | hb
            · exact absurd ha (by simp [hb])
            · exact hb
        have ht : collapseAux true t = t :=
          ih true (nds_tail h1) (fun c hc hsp => h2 c (List.mem_cons_of_mem _ hc) hsp)
            (fun _ => hthead)
        simp only [collapseAux, ha, if_true, Bool.false_eq_true, if_false, ht]
        rw [haS]
    · have ha' : isPySpace a = false := by simpa using ha
      have ht : collapseAux false t = t :=
        ih false (nds_tail h1) (fun c hc hsp => h2 c (List.mem_cons_of_mem _ hc) hsp)
          (fun hf => absurd hf (by decide))
      simp only [collapseAux, ha', Bool.false_eq_true, if_false, ht]

theorem sanitize_fixed {l : List Char}
    (hall : ∀ c ∈ l, isAllowedChar c = true)
    (hsp : ∀ c ∈ l, isPySpace c = true → c = ' ')
    (hnds : noDoubleSpace l = true)
    (hhead : ∀ c, l.head? = some c → isPySpace c = false)
    (hlast : ∀ c, l.getLast? = some c → isPySpace c = false)
    (hne : l ≠ []) :
    sanitize_filename ⟨l⟩ = ⟨l⟩ := by
  unfold sanitize_filename
  have hd : (⟨l⟩ : String).data = l := rfl
  rw [hd, replaceDisallowed_eq_self hall]
  have hc : collapseWS l = l :=
    collapseAux_eq_self l false hnds hsp (fun hf => absurd hf (by decide))
  rw [hc, pyStrip_eq_self hhead hlast, if_neg hne]

theorem sanitize_props (s : String) :
    (∀ c ∈ (sanitize_filename s).data, isAllowedChar c = true) ∧
    (∀ c ∈ (sanitize_filename s).data, isPySpace c = true → c = ' ') ∧
    noDoubleSpace (sanitize_filename s).data = true ∧
    (∀ c, (sanitize_filename s).data.head? = some c → isPySpace c = false) ∧
    (∀ c, (sanitize_filename s).data.getLast? = some c → isPySpace c = false) ∧
    (sanitize_filename s).data ≠ [] := by
  unfold sanitize_filename
  by_cases h : pyStrip (collapseWS (replaceDisallowed s.data)) = []
  · rw [if_pos h]
    refine ⟨?_, ?_, ?_, ?_, ?_, ?_⟩ <;> decide
  · rw [if_neg h]
    have hd : (⟨pyStrip (collapseWS (replaceDisallowed s.data))⟩ : String).data =
        pyStrip (collapseWS (replaceDisallowed s.data)) := rfl
    rw [hd]
    refine ⟨?_, ?_, nds_pyStrip (nds_collapseAux _ false), fun c => head_pyStrip,
      fun c => last_pyStrip, h⟩
    · intro c hc
      rcases mem_collapseAux false _ c (mem_pyStrip hc) with h1 | ⟨h1, _⟩
      · rw [h1]; decide
      · exact allowed_replaceDisallowed h1
    · intro c hc hsp
      rcases mem_collapseAux false _ c (mem_pyStrip hc) with h1 | ⟨_, h2⟩
      · exact h1
      · exact absurd hsp (by simp [h2])

/-- C6: for every input filename, the sanitized name contains only characters
of the class `[A-Za-z0-9\s\-()\[\]]`, has no two consecutive whitespace
characters, no leading or trailing whitespace, is non-empty, and equals the
fixed placeholder `"document"` whenever substitution, whitespace collapsing
and trimming leave the empty string. -/
theorem sanitize_filename_spec (s : String) :
    (∀ c ∈ (sanitize_filename s).data, isAllowedChar c = true) ∧
    noDoubleSpace (sanitize_filename s).data = true ∧
    (∀ c, (sanitize_filename s).data.head? = some c → isPySpace c = false) ∧
    (∀ c, (sanitize_filename s).data.getLast? = some c → isPySpace c = false) ∧
    sanitize_filename s ≠ "" ∧
    (pyStrip (collapseWS (replaceDisallowed s.data)) = [] →
      sanitize_filename s = "document") := by
  obtain ⟨h1, _, h3, h4, h5, h6⟩ := sanitize_props s
  refine ⟨h1, h3, h4, h5, ?_, ?_⟩
  · intro h
    exact h6 (by rw [h])
  · intro h
    unfold sanitize_filename
    rw [if_pos h]

/-- Witness for the C6 theorem at the concrete filename `"!!!"`, whose
sanitization empties the string. -/
theorem sanitize_filename_spec_witness :
    pyStrip (collapseWS (replaceDisallowed ("!!!" : String).data)) = [] ∧
    sanitize_filename "!!!" = "document" :=
  ⟨by decide, (sanitize_filename_spec "!!!").2.2.2.2.2 (by decide)⟩

/-- C9: the filename sanitizer is idempotent, so an already sanitized name
passes through unchanged when conversation history is resubmitted. -/
theorem sanitize_filename_idem (s : String) :
    sanitize_filename (sanitize_filename s) = sanitize_filename s := by
  obtain ⟨h1, h2, h3, h4, h5, h6⟩ := sanitize_props s
  exact sanitize_fixed h1 h2 h3 h4 h5 h6

/-! ## Lemmas about the stream consumer -/

theorem concatTexts_append (l₁ l₂ : List String) :
    concatTexts (l₁ ++ l₂) = concatTexts l₁ ++ concatTexts l₂ := by
  induction l₁ with
  | nil => simp [concatTexts]
  | cons a t ih =>
    simp only [concatTexts, List.foldr_cons, List.cons_append] at *
    rw [ih, String.append_assoc]

theorem processEvent_fullResponse (s : StreamState) (e : StreamEvent) :
    (processEvent s e).fullResponse = s.fullResponse ++ (deltaText e).getD "" := by
  cases e with
  | contentBlockDelta t => cases t <;> simp [processEvent, deltaText]
  | messageStop r => simp [processEvent, deltaText]
  | metadataEvent u m => simp [processEvent, deltaText]
  | otherEvent => simp [processEvent, deltaText]

theorem foldl_fullResponse (events : List StreamEvent) (s : StreamState) :
    (events.foldl processEvent s).fullResponse =
      s.fullResponse ++ concatTexts (events.filterMap deltaText) := by
  induction events using List.reverseRecOn with
  | nil => simp [concatTexts]
  | append_singleton t e ih =>
    rw [List.foldl_append]
    simp only [List.foldl_cons, List.foldl_nil]
    rw [processEvent_fullResponse, ih, List.filterMap_append, concatTexts_append]
    cases he : deltaText e <;>
      simp [he, concatTexts, String.append_assoc]

theorem processEvent_usage (s : StreamState) (e : StreamEvent) :
    (processEvent s e).usage = (eventUsage e).or s.usage := by
  cases e with
  | contentBlockDelta t => cases t <;> simp [processEvent, eventUsage]
  | messageStop r => simp [processEvent, eventUsage]
  | metadataEvent u m => cases u <;> simp [processEvent, eventUsage]
  | otherEvent => simp [processEvent, eventUsage]

theorem foldl_usage (events : List StreamEvent) (s : StreamState) :
    (events.foldl processEvent s).usage =
      ((events.filterMap eventUsage).getLast?).or s.usage := by
  induction events using List.reverseRecOn with
  | nil => simp
  | append_singleton t e ih =>
    rw [List.foldl_append]
    simp only [List.foldl_cons, List.foldl_nil]
    rw [processEvent_usage, ih, List.filterMap_append]
    cases he : eventUsage e with
    | some u => simp [he, List.filterMap_cons, List.getLast?_concat]
    | none => simp [he, List.filterMap_cons]

/-- C1: for every finite event sequence consumed without a fault, the final
buffer is the concatenation, in delivery order, of the text fields of the
delta events, and the final usage is that of the last metadata event
carrying usage; on the synthetic sequence of the spec the buffer is
`"Hello"` and the usage is `{input 5, output 2}`. -/
theorem stream_consumer_spec (events : List StreamEvent) :
    (processStream events).fullResponse = concatTexts (events.filterMap deltaText) ∧
    (processStream events).usage = (events.filterMap eventUsage).getLast? ∧
    (processStream [StreamEvent.contentBlockDelta (some "Hel"),
        StreamEvent.contentBlockDelta (some "lo"),
        StreamEvent.metadataEvent (some ⟨5, 2, 0, 0⟩) none,
        StreamEvent.messageStop "end_turn"]).fullResponse = "Hello" ∧
    (processStream [StreamEvent.contentBlockDelta (some "Hel"),
        StreamEvent.contentBlockDelta (some "lo"),
        StreamEvent.metadataEvent (some ⟨5, 2, 0, 0⟩) none,
        StreamEvent.messageStop "end_turn"]).usage = some ⟨5, 2, 0, 0⟩ := by
  refine ⟨?_, ?_, rfl, rfl⟩
  · have h := foldl_fullResponse events initStreamState
    simpa [processStream, initStreamState] using h
  · have h := foldl_usage events initStreamState
    simpa [processStream, initStreamState, Option.or_none] using h

/-- C2: when the request or the stream raises a fault, the store is left
with only the already-appended user turn (no assistant turn), and the
caller receives the provider-classified error for a `ClientError` and a
generic error otherwise. -/
theorem fault_leaves_store_spec (store : List Msg) (prompt : String)
    (file : Option UploadedFile) (dc : Bool) (events : List StreamEvent)
    (fault : Option Fault) (f : Fault) (h : fault = some f) :
    (submitTurn store prompt file dc events fault).1 =
      store ++ [mkUserMessage prompt file dc] ∧
    (∀ code msg, f = Fault.clientError code msg →
      (submitTurn store prompt file dc events fault).2 =
        TurnResult.awsError code msg) ∧
    (∀ msg, f = Fault.generic msg →
      (submitTurn store prompt file dc events fault).2 =
        TurnResult.genericError msg) := by
  subst h
  cases f with
  | clientError code msg =>
    refine ⟨rfl, ?_, ?_⟩
    · intro code' msg' he
      cases he
      rfl
    · intro msg' he
      cases he
  | generic msg =>
    refine ⟨rfl, ?_, ?_⟩
    · intro code' msg' he
      cases he
    · intro msg' he
      cases he
      rfl

/-- Witness for the C2 theorem: a provider fault raised after a partial
delta leaves only the user turn in the store and surfaces the provider
error code and message. -/
theorem fault_leaves_store_witness :
    (submitTurn [] "hi" none false [StreamEvent.contentBlockDelta (some "par")]
        (some (Fault.clientError "ThrottlingException" "Rate exceeded"))).1 =
      [] ++ [mkUserMessage "hi" none false] ∧
    (submitTurn [] "hi" none false [StreamEvent.contentBlockDelta (some "par")]
        (some (Fault.clientError "ThrottlingException" "Rate exceeded"))).2 =
      TurnResult.awsError "ThrottlingException" "Rate exceeded" := by
  have h := fault_leaves_store_spec [] "hi" none false
    [StreamEvent.contentBlockDelta (some "par")]
    (some (Fault.clientError "ThrottlingException" "Rate exceeded"))
    (Fault.clientError "ThrottlingException" "Rate exceeded") rfl
  exact ⟨h.1, h.2.1 _ _ rfl⟩

/-- C10: a stream that finishes without a fault but carries no text deltas
still appends exactly one assistant turn, with empty text and the captured
metadata. -/
theorem empty_stream_appends_assistant (store : List Msg) (prompt : String)
    (file : Option UploadedFile) (dc : Bool) (events : List StreamEvent)
    (h : ∀ e ∈ events, deltaText e = none) :
    (submitTurn store prompt file dc events none).1 =
      store ++ [mkUserMessage prompt file dc,
        mkAssistantMsg (processStream events)] ∧
    (mkAssistantMsg (processStream events)).text = some "" ∧
    (mkAssistantMsg (processStream events)).metadata =
      some { usage := (processStream events).usage,
             metrics := (processStream events).metrics } ∧
    (submitTurn store prompt file dc events none).1.length = store.length + 2 := by
  have hfr : (processStream events).fullResponse = "" := by
    have h2 := foldl_fullResponse events initStreamState
    rw [List.filterMap_eq_nil_iff.mpr h] at h2
    simpa [processStream, initStreamState, concatTexts] using h2
  refine ⟨?_, ?_, rfl, ?_⟩
  · simp [submitTurn]
  · simp [mkAssistantMsg, hfr]
  · simp [submitTurn]

/-- Witness for the C10 theorem: a stream carrying only a metadata event
yields a user turn plus an assistant turn with empty text. -/
theorem empty_stream_appends_assistant_witness :
    (submitTurn [] "hi" none false
        [StreamEvent.metadataEvent (some ⟨5, 2, 0, 0⟩) none] none).1 =
      [] ++ [mkUserMessage "hi" none false,
        mkAssistantMsg (processStream
          [StreamEvent.metadataEvent (some ⟨5, 2, 0, 0⟩) none])] ∧
    (mkAssistantMsg (processStream
        [StreamEvent.metadataEvent (some ⟨5, 2, 0, 0⟩) none])).text = some "" := by
  have h := empty_stream_appends_assistant [] "hi" none false
    [StreamEvent.metadataEvent (some ⟨5, 2, 0, 0⟩) none] (by decide)
  exact ⟨h.1, h.2.1⟩

/-! ## Request-builder theorems -/

/-- C4: within one turn the builder emits the image block first (when
present), then the document block followed immediately by a cache point
exactly when its stored `cached` flag is set, then the text block last; the
concrete store with one cached document and no text yields exactly one
cache point in the whole payload, immediately after the document block, and
none in the system section. -/
theorem turn_block_order (m : Msg) :
    (msgContent m).map kindOf =
      (match m.image with | some _ => [BKind.image] | none => []) ++
      (match m.document with
       | some d => [BKind.document] ++ (if d.cached then [BKind.cachePoint] else [])
       | none => []) ++
      (match m.text with | some _ => [BKind.text] | none => []) ∧
    countCachePoints
      (buildPayload [exampleDocMsg] "You are a helpful AI assistant." false false) = 1 ∧
    msgContent exampleDocMsg = [Block.document "pdf" "report" [], Block.cachePoint] ∧
    countCachePointsBlocks
      ((buildPayload [exampleDocMsg] "You are a helpful AI assistant."
          false false).system.getD []) = 0 := by
  refine ⟨?_, by decide, by decide, by decide⟩
  rcases m with ⟨r, txt, img, doc, md⟩
  rcases img with _ | i <;> rcases txt with _ | t <;> rcases doc with _ | d <;>
    simp [msgContent, kindOf, apply_ite (List.map kindOf)]

/-- C3: caching intent is fixed at submit time: the built messages are
independent of the call-time cache toggles; a cache point follows a
document block exactly when that document's stored `cached` flag is set;
the system cache point follows the call-time system toggle (the system
prompt is submitted anew at every call); and a document submitted while the
document-cache toggle has a given value stores exactly that value. -/
theorem cache_intent_fixed (store : List Msg) (sysPrompt : String)
    (sc dc sc' dc' : Bool) :
    (buildPayload store sysPrompt sc dc).messages =
      (buildPayload store sysPrompt sc' dc').messages ∧
    (∀ m ∈ store, ∀ d, m.document = some d →
      (Block.cachePoint ∈ msgContent m ↔ d.cached = true)) ∧
    (∀ m ∈ store, m.document = none → Block.cachePoint ∉ msgContent m) ∧
    (Block.cachePoint ∈ (buildPayload store sysPrompt sc dc).system.getD [] ↔
      (sc = true ∧ pyStrip sysPrompt.data ≠ [])) ∧
    (∀ prompt f, classifyKind f.mime = FileKind.document →
      (mkUserMessage prompt (some f) dc).document =
        some { format := docFormatOf (fileExtension f.name),
               name := sanitize_filename f.name, original_name := f.name,
               content := f.bytes, cached := dc }) := by
  refine ⟨rfl, ?_, ?_, ?_, ?_⟩
  · intro m _ d hd
    rcases m with ⟨r, txt, img, doc, md⟩
    cases hd
    rcases img with _ | i <;> rcases txt with _ | t <;> cases hdc : d.cached <;>
      simp [msgContent, hdc]
  · intro m _ hd
    rcases m with ⟨r, txt, img, doc, md⟩
    cases hd
    rcases img with _ | i <;> rcases txt with _ | t <;> simp [msgContent]
  · by_cases hp : pyStrip sysPrompt.data = []
    · simp [buildPayload, buildSystem, hp]
    · cases sc <;> simp [buildPayload, buildSystem, hp]
  · intro prompt f h
    simp [mkUserMessage, h]

/-- Witness for the C3 theorem: the cache point is present in the content
built from the concrete cached-document store entry. -/
theorem cache_intent_fixed_witness :
    Block.cachePoint ∈ msgContent exampleDocMsg :=
  ((cache_intent_fixed [exampleDocMsg] "sys" true false false true).2.1
    exampleDocMsg (by decide)
    { format := "pdf", name := "report", original_name := "report.pdf",
      content := [], cached := true } rfl).mpr rfl

/-- C5: an empty or whitespace-only system prompt makes the system section
entirely absent (`None`, not an empty list), while a prompt with any
non-whitespace character yields a present section holding exactly one text
block, placed first. -/
theorem system_section_spec (p : String) (c : Bool) :
    (buildSystem p c = none ↔ ∀ ch ∈ p.data, isPySpace ch = true) ∧
    ((¬ ∀ ch ∈ p.data, isPySpace ch = true) →
      ∃ l, buildSystem p c = some l ∧
        l.countP isTextBlock = 1 ∧
        l.head? = some (Block.text p)) := by
  constructor
  · rw [← pyStrip_eq_nil_iff]
    unfold buildSystem
    by_cases hp : pyStrip p.data = [] <;> simp [hp]
  · intro h
    rw [← pyStrip_eq_nil_iff] at h
    refine ⟨[Block.text p] ++ (if c then [Block.cachePoint] else []), ?_, ?_, rfl⟩
    · unfold buildSystem
      rw [if_pos h]
    · cases c <;> simp [isTextBlock]

/-- Witness for the C5 theorem: a blank prompt yields no system section, a
one-letter prompt yields a section led by its text block. -/
theorem system_section_spec_witness :
    buildSystem " " true = none ∧
    (∃ l, buildSystem "x" false = some l ∧
      l.countP isTextBlock = 1 ∧ l.head? = some (Block.text "x")) :=
  ⟨(system_section_spec " " true).1.mpr (by decide),
    (system_section_spec "x" false).2 (by decide)⟩

/-! ## Attachment-normalizer theorem -/

/-- C7: an upload is classified as an image exactly when its MIME type
starts with `image/` (otherwise as a document); the image format tag
follows the fixed extension table with default `jpeg`, the document format
tag the fixed identity table with default `txt`; every upload yields an
attachment. -/
theorem normalizer_spec :
    (∀ mime : String,
      classifyKind mime = FileKind.image ↔ mime.startsWith "image/" = true) ∧
    (∀ (p : String) (dc : Bool) (f : UploadedFile),
      ((mkUserMessage p (some f) dc).image.isSome = true ↔
        f.mime.startsWith "image/" = true) ∧
      ((mkUserMessage p (some f) dc).document.isSome = true ↔
        ¬ f.mime.startsWith "image/" = true)) ∧
    imageFormatOf "jpg" = "jpeg" ∧ imageFormatOf "jpeg" = "jpeg" ∧
    imageFormatOf "png" = "png" ∧ imageFormatOf "gif" = "gif" ∧
    imageFormatOf "webp" = "webp" ∧
    (∀ ext, ext ∉ ["jpg", "jpeg", "png", "gif", "webp"] →
      imageFormatOf ext = "jpeg") ∧
    (∀ ext, ext ∈ docFormatKeys → docFormatOf ext = ext) ∧
    (∀ ext, ext ∉ docFormatKeys → docFormatOf ext = "txt") := by
  refine ⟨?_, ?_, rfl, rfl, rfl, rfl, rfl, ?_, ?_, ?_⟩
  · intro mime
    by_cases h : mime.startsWith "image/" = true <;> simp [classifyKind, h]
  · intro p dc f
    by_cases h : f.mime.startsWith "image/" = true <;>
      simp [mkUserMessage, classifyKind, h]
  · intro ext h
    simp only [List.mem_cons, List.not_mem_nil, or_false, not_or] at h
    obtain ⟨h1, h2, h3, h4, h5⟩ := h
    simp [imageFormatOf, h1, h2, h3, h4, h5]
  · intro ext h
    unfold docFormatOf
    rw [if_pos (by simpa using List.elem_iff.mpr h)]
  · intro ext h
    unfold docFormatOf
    rw [if_neg (by simpa using fun hc => h (List.elem_iff.mp hc))]

/-- Witness for the C7 theorem at concrete unrecognized extensions. -/
theorem normalizer_spec_witness :
    imageFormatOf "bmp" = "jpeg" ∧ docFormatOf "json" = "txt" ∧
    docFormatOf "pdf" = "pdf" :=
  ⟨normalizer_spec.2.2.2.2.2.2.2.1 "bmp" (by decide),
    normalizer_spec.2.2.2.2.2.2.2.2.2 "json" (by decide),
    normalizer_spec.2.2.2.2.2.2.2.2.1 "pdf" (by decide)⟩

/-! ## Lemmas about the telemetry formatter -/

theorem string_append_ne (p q x y : String) (i : Nat) (a b : Char)
    (hp : p.data[i]? = some a) (hq : q.data[i]? = some b) (hab : a ≠ b) :
    p ++ x ≠ q ++ y := by
  intro h
  have hd : p.data ++ x.data = q.data ++ y.data := by
    have h2 := congrArg String.data h
    simpa [String.data_append] using h2
  have hip : i < p.data.length := by
    rcases List.getElem?_eq_some_iff.mp hp with ⟨h3, _⟩
    exact h3
  have hiq : i < q.data.length := by
    rcases List.getElem?_eq_some_iff.mp hq with ⟨h3, _⟩
    exact h3
  have h1 : (p.data ++ x.data)[i]? = some a := by
    rw [List.getElem?_append_left hip]
    exact hp
  have h2 : (q.data ++ y.data)[i]? = some b := by
    rw [List.getElem?_append_left hiq]
    exact hq
  rw [hd, h2] at h1
  exact hab (Option.some.inj h1).symm

theorem inputSeg_ne_cacheReadSeg (i o n : Nat) : inputSeg i o ≠ cacheReadSeg n :=
  string_append_ne _ _ _ _ 0 'I' '💾' rfl rfl (by decide)

theorem inputSeg_ne_cacheWriteSeg (i o n : Nat) : inputSeg i o ≠ cacheWriteSeg n :=
  string_append_ne _ _ _ _ 0 'I' '💾' rfl rfl (by decide)

theorem inputSeg_ne_latencySeg (i o n : Nat) : inputSeg i o ≠ latencySeg n :=
  string_append_ne _ _ _ _ 0 'I' '⏱' rfl rfl (by decide)

theorem cacheReadSeg_ne_cacheWriteSeg (x y : Nat) : cacheReadSeg x ≠ cacheWriteSeg y :=
  string_append_ne _ _ _ _ 8 'R' 'W' rfl rfl (by decide)

theorem cacheReadSeg_ne_latencySeg (x y : Nat) : cacheReadSeg x ≠ latencySeg y :=
  string_append_ne _ _ _ _ 0 '💾' '⏱' rfl rfl (by decide)

theorem cacheWriteSeg_ne_latencySeg (x y : Nat) : cacheWriteSeg x ≠ latencySeg y :=
  string_append_ne _ _ _ _ 0 '💾' '⏱' rfl rfl (by decide)

theorem cacheReadSeg_mem_iff (md : Metadata) (u : Usage) (h : md.usage = some u) :
    (cacheReadSeg u.cacheReadInputTokens ∈ metaParts md ↔
      0 < u.cacheReadInputTokens) := by
  have n1 := Ne.symm
    (inputSeg_ne_cacheReadSeg u.inputTokens u.outputTokens u.cacheReadInputTokens)
  have n2 := cacheReadSeg_ne_cacheWriteSeg u.cacheReadInputTokens u.cacheWriteInputTokens
  rcases hmt : md.metrics with _ | m
  · by_cases hcr : 0 < u.cacheReadInputTokens <;>
      by_cases hcw : 0 < u.cacheWriteInputTokens <;>
        simp [metaParts, h, hmt, hcr, hcw, n1, n2]
  · have n3 := cacheReadSeg_ne_latencySeg u.cacheReadInputTokens m.latencyMs
    by_cases hcr : 0 < u.cacheReadInputTokens <;>
      by_cases hcw : 0 < u.cacheWriteInputTokens <;>
        by_cases hl : 0 < m.latencyMs <;>
          simp [metaParts, h, hmt, hcr, hcw, hl, n1, n2, n3]

theorem cacheWriteSeg_mem_iff (md : Metadata) (u : Usage) (h : md.usage = some u) :
    (cacheWriteSeg u.cacheWriteInputTokens ∈ metaParts md ↔
      0 < u.cacheWriteInputTokens) := by
  have n1 := Ne.symm
    (inputSeg_ne_cacheWriteSeg u.inputTokens u.outputTokens u.cacheWriteInputTokens)
  have n2 := Ne.symm
    (cacheReadSeg_ne_cacheWriteSeg u.cacheReadInputTokens u.cacheWriteInputTokens)
  rcases hmt : md.metrics with _ | m
  · by_cases hcr : 0 < u.cacheReadInputTokens <;>
      by_cases hcw : 0 < u.cacheWriteInputTokens <;>
        simp [metaParts, h, hmt, hcr, hcw, n1, n2]
  · have n3 := cacheWriteSeg_ne_latencySeg u.cacheWriteInputTokens m.latencyMs
    by_cases hcr : 0 < u.cacheReadInputTokens <;>
      by_cases hcw : 0 < u.cacheWriteInputTokens <;>
        by_cases hl : 0 < m.latencyMs <;>
          simp [metaParts, h, hmt, hcr, hcw, hl, n1, n2, n3]

theorem latencySeg_mem_iff (md : Metadata) (m : Metrics) (h : md.metrics = some m) :
    (latencySeg m.latencyMs ∈ metaParts md ↔ 0 < m.latencyMs) := by
  rcases hu : md.usage with _ | u
  · by_cases hl : 0 < m.latencyMs <;> simp [metaParts, h, hu, hl]
  · have n1 := Ne.symm (inputSeg_ne_latencySeg u.inputTokens u.outputTokens m.latencyMs)
    have n2 := Ne.symm (cacheReadSeg_ne_latencySeg u.cacheReadInputTokens m.latencyMs)
    have n3 := Ne.symm (cacheWriteSeg_ne_latencySeg u.cacheWriteInputTokens m.latencyMs)
    by_cases hcr : 0 < u.cacheReadInputTokens <;>
      by_cases hcw : 0 < u.cacheWriteInputTokens <;>
        by_cases hl : 0 < m.latencyMs <;>
          simp [metaParts, h, hu, hcr, hcw, hl, n1, n2, n3]

/-- C8 counterexample: a metadata record whose usage record is present but
all-zero (and zero latency) makes the formatter emit `"Input: 0 | Output: 0"`
rather than nothing, refuting "emits nothing at all when no metadata fields
are present or all values are zero". -/
theorem telemetry_formatter_counterexample :
    formatMetadata ⟨some ⟨0, 0, 0, 0⟩, some ⟨0⟩⟩ = some "Input: 0 | Output: 0" ∧
    formatMetadata ⟨some ⟨0, 0, 0, 0⟩, some ⟨0⟩⟩ ≠ none := by
  refine ⟨?_, ?_⟩ <;> decide

/-- C8 (amended): the cache-read segment is emitted iff the cache-read
count is strictly positive, likewise cache-write and latency; the
`Input/Output` segment is emitted whenever the usage record is present
(even if all its values are zero); nothing is emitted exactly when the
usage record is absent/empty and the latency is not strictly positive; the
spec example yields only `"Input: 5 | Output: 2"`. -/
theorem telemetry_formatter_spec (md : Metadata) :
    (formatMetadata md = none ↔
      (md.usage = none ∧ ∀ m, md.metrics = some m → m.latencyMs = 0)) ∧
    (∀ u, md.usage = some u →
      (cacheReadSeg u.cacheReadInputTokens ∈ metaParts md ↔
        0 < u.cacheReadInputTokens)) ∧
    (∀ u, md.usage = some u →
      (cacheWriteSeg u.cacheWriteInputTokens ∈ metaParts md ↔
        0 < u.cacheWriteInputTokens)) ∧
    (∀ m, md.metrics = some m →
      (latencySeg m.latencyMs ∈ metaParts md ↔ 0 < m.latencyMs)) ∧
    (∀ u, md.usage = some u →
      inputSeg u.inputTokens u.outputTokens ∈ metaParts md) ∧
    formatMetadata ⟨some ⟨5, 2, 0, 0⟩, some ⟨0⟩⟩ = some "Input: 5 | Output: 2" := by
  refine ⟨?_, fun u h => cacheReadSeg_mem_iff md u h,
    fun u h => cacheWriteSeg_mem_iff md u h,
    fun m h => latencySeg_mem_iff md m h, ?_, by decide⟩
  · obtain ⟨u, mt⟩ := md
    rcases u with _ | u <;> rcases mt with _ | m
    · simp [formatMetadata, metaParts]
    · by_cases hl : 0 < m.latencyMs <;>
        simp [formatMetadata, metaParts, hl] <;> omega
    · simp [formatMetadata, metaParts]
    · by_cases hl : 0 < m.latencyMs <;> simp [formatMetadata, metaParts, hl]
  · intro u h
    simp [metaParts, h]

/-- Witness for the C8 amended theorem at concrete metadata records. -/
theorem telemetry_formatter_spec_witness :
    (cacheReadSeg 7 ∈ metaParts ⟨some ⟨5, 2, 7, 0⟩, none⟩) ∧
    formatMetadata ⟨none, none⟩ = none :=
  ⟨((telemetry_formatter_spec ⟨some ⟨5, 2, 7, 0⟩, none⟩).2.1 ⟨5, 2, 7, 0⟩ rfl).mpr
      (by decide),
    (telemetry_formatter_spec ⟨none, none⟩).1.mpr ⟨rfl, fun m h => nomatch h⟩⟩

end BotoConverseStreamCache
